import Mathlib

/-
Verification development for the `advanced-vector` repository
(src/advanced-vector/vector.h): a generic resizable contiguous-storage
container `Vector<T>` built on a raw-memory owner `RawMemory<T>`.

Shallow embedding. A vector state is the list of its live element values
(slots [0, size_)) together with the capacity of its `RawMemory` block.
Element values are modelled as `Nat`; a move of an element is value-preserving
(the moved-from slot keeps a value until destroyed, which matches the
observable contract used by the container: moved-from slots are only ever
destroyed or overwritten).

Pointer-range algorithms of the source (`std::move_backward`, `std::move`,
placement construction at `data_ + i`) are translated into the corresponding
take/drop/set operations on the list of live values; each definition carries
a comment mapping it to the source lines it embeds.

Exception behaviour (element copy constructors that may throw) is modelled by
a failure oracle `fails : Nat → Bool` saying which element values throw when
copied, and by `Except`/slot-level (`MemState`) results that record the
observable container state after the exception propagates.
-/

namespace AdvVec

/-- The observable state of a `Vector<T>`: the values of the live elements in
slots `[0, size_)` and the capacity of the owned `RawMemory` block.
`size_` is recoverable as `elems.length` (in every non-corrupted state the
number of live elements equals the `size_` field of the source). -/
structure VecState where
  elems : List Nat
  capacity : Nat
deriving DecidableEq, Repr

/-- Embedding of `size_` of the vector: the number of live elements. -/
def VecState.size (v : VecState) : Nat := v.elems.length

/-- The container invariant `0 ≤ size_ ≤ capacity` (the lower bound is
automatic for `Nat`). -/
def wf (v : VecState) : Prop := v.size ≤ v.capacity

/-- Embedding of `Vector() = default`: no storage, no elements. -/
def defaultCtor : VecState := ⟨[], 0⟩

/-- Embedding of `explicit Vector(size_t size)` : `data_(size), size_(size)` then
`std::uninitialized_value_construct_n` — `size` value-initialized elements
(value 0 in the model). -/
def sizedCtor (n : Nat) : VecState := ⟨List.replicate n 0, n⟩

/-- Embedding of `Vector(const Vector& other)` : `data_(other.size_), size_(other.size_)`
then `std::uninitialized_copy_n`. Note the new capacity is the source's
*size*, not the source's capacity. -/
def copyCtor (v : VecState) : VecState := ⟨v.elems, v.size⟩

/-- Embedding of `Vector(Vector&& other)` : default-initialized members, then `Swap(other)`.
Returns (new vector, state the source is left in). -/
def moveCtor (v : VecState) : VecState × VecState := (v, defaultCtor)

/-- Embedding of `Reserve(new_capacity)`: early return when `new_capacity <= Capacity()`;
otherwise allocate `RawMemory(new_capacity)`, relocate all live elements via
`MoveItemsInNewMemory`, and `data_.Swap(new_data)`. Success path: the live
values are unchanged, the capacity becomes exactly `new_capacity`. -/
def reserve (v : VecState) (n : Nat) : VecState :=
  if n ≤ v.capacity then v
  else ⟨v.elems, n⟩

/-- Embedding of `Resize(new_size)`:
if `new_size < size_`, `std::destroy_n(data_ + new_size, size_ - new_size)`;
if `new_size > size_`, `Reserve(new_size)` when `new_size > Capacity()`, then
`std::uninitialized_value_construct_n(data_ + size_, new_size - size_)`;
finally `size_ = new_size`. -/
def resize (v : VecState) (n : Nat) : VecState :=
  if n < v.size then ⟨v.elems.take n, v.capacity⟩
  else if v.size < n then ⟨v.elems ++ List.replicate (n - v.size) 0, (reserve v n).capacity⟩
  else v

/-- Embedding of `std::move_backward(begin() + index, end() - 1, begin() + size_)` acting on
a buffer `l` of `size_ + 1` live values (the last slot was just constructed):
copies the range `[index, l.length - 1)` one slot to the right, so slot `i`
keeps `l[i]` for `i ≤ index` and slot `i` receives `l[i-1]` for `i > index`. -/
def moveBackwardOne (l : List Nat) (index : Nat) : List Nat :=
  l.take (index + 1) ++ l.dropLast.drop index

/-- Embedding of `InsertInPlace(index, args...)` (lines 268-278 of vector.h):
* `index == size_`: `new (data_ + size_) T(args...)` — append at the end;
* otherwise: `T temp(args...)`, then
  `new (data_ + size_) T(std::move(*(begin() + size_ - 1)))` (append a copy of
  the current last value), then `std::move_backward` shifting
  `[index, size_-1)` right by one, then `*(begin() + index) = std::move(temp)`. -/
def insertInPlace (elems : List Nat) (index x : Nat) : List Nat :=
  if index = elems.length then elems ++ [x]
  else (moveBackwardOne (elems ++ [elems.getD (elems.length - 1) 0]) index).set index x

/-- The growth policy of `InsertWithReallocate`:
`RawMemory<T> new_data(size_ == 0 ? 1 : size_ * 2)`. -/
def growCapacity (n : Nat) : Nat := if n = 0 then 1 else n * 2

/-- Embedding of `Emplace(pos, args...)` (lines 228-238): with `index = pos - begin()`,
take `InsertWithReallocate` when `size_ == Capacity() || index == Capacity()`,
else `InsertInPlace`; then `++size_` (implicit here: the length of the live
list grows by one inside the chosen branch).
The reallocating branch constructs the new element at `new_data + index`, then
relocates `[0, index)` to `new_data` and `[index, size_)` to
`new_data + index + 1` — net live content
`take index ++ x :: drop index` in a block of capacity `growCapacity size_`. -/
def emplace (v : VecState) (index x : Nat) : VecState :=
  if v.size = v.capacity ∨ index = v.capacity then
    ⟨v.elems.take index ++ x :: v.elems.drop index, growCapacity v.size⟩
  else
    ⟨insertInPlace v.elems index x, v.capacity⟩

/-- Embedding of `Emplace` together with its return value `begin() + index`: the iterator
is modelled as the offset `index` into the (possibly reallocated) buffer. -/
def emplaceRet (v : VecState) (index x : Nat) : VecState × Nat :=
  (emplace v index x, index)

/-- Embedding of `EmplaceBack(args...)` (lines 183-187): `Emplace(begin() + size_, args...)`
then `return data_[size_ - 1]` (with `size_` already incremented). Returns the
new state and the value of the returned reference. -/
def emplaceBack (v : VecState) (x : Nat) : VecState × Nat :=
  let v2 := emplace v v.size x
  (v2, v2.elems.getD (v2.size - 1) 0)

/-- Embedding of `PushBack(value)`: forwards to `EmplaceBack`. -/
def pushBack (v : VecState) (x : Nat) : VecState := (emplaceBack v x).1

/-- Embedding of `PopBack()`: `--size_; std::destroy_at(data_ + size_)`. -/
def popBack (v : VecState) : VecState := ⟨v.elems.dropLast, v.capacity⟩

/-- Embedding of `std::move(begin() + index + 1, end(), begin() + index)` acting on the
live buffer `l`: slots `[index, l.length - 1)` receive `l[i+1]`, the last slot
keeps its (moved-from) value. -/
def moveForwardOne (l : List Nat) (index : Nat) : List Nat :=
  l.take index ++ l.drop (index + 1) ++ [l.getD (l.length - 1) 0]

/-- Embedding of `Erase(pos)` (lines 240-246): with `index = pos - begin()`, the forward
move shifts `(index, size_)` one slot left, then
`std::destroy_n(data_ + size_ - 1, 1)` destroys the vacated last slot and
`--size_`. Never reallocates. -/
def erase (v : VecState) (index : Nat) : VecState :=
  ⟨(moveForwardOne v.elems index).dropLast, v.capacity⟩

/-- Embedding of `Erase` together with its return value `begin() + index`. -/
def eraseRet (v : VecState) (index : Nat) : VecState × Nat :=
  (erase v index, index)

/-- Embedding of `operator=(const Vector& rhs)` (lines 110-131), success path. `isSelf`
models the aliasing test `this != &rhs`: when the two operands are the same
object the body is skipped.
* `rhs.size_ > data_.Capacity()`: `Vector temp(rhs); Swap(temp)` — the result
  is a copy-constructed image of the source (capacity = source size);
* otherwise: `std::copy_n` over the overlapping prefix,
  `std::uninitialized_copy_n` for the extra trailing elements,
  `std::destroy_n` for the excess, then `size_ = rhs.size_` — the live values
  become the source's values, the capacity is kept. -/
def copyAssign (dst src : VecState) (isSelf : Bool) : VecState :=
  if isSelf then dst
  else if dst.capacity < src.size then copyCtor src
  else ⟨src.elems, dst.capacity⟩

/-- Embedding of `operator=(Vector&& rhs)` (lines 133-138): `Swap(rhs)` unless
`this == &rhs`. Returns (new destination state, new source state). -/
def moveAssign (dst src : VecState) (isSelf : Bool) : VecState × VecState :=
  if isSelf then (dst, src) else (src, dst)

/-! ### Exception model

The element type's copy constructor may throw; `fails v` says that copying an
element holding value `v` throws. Destructors and (in the nothrow-move regime)
move constructors never throw. -/

/-- Embedding of `std::uninitialized_copy_n(src, n, dst)` over the whole list `src`:
copies left to right; if a copy constructor throws, every element this
algorithm already constructed is destroyed and the exception propagates
(`error`), otherwise the constructed values are the source values (`ok`).
The source range is never modified. -/
def uninitializedCopyN (fails : Nat → Bool) : List Nat → Except Unit (List Nat)
  | [] => .ok []
  | x :: xs =>
    if fails x then .error ()
    else
      match uninitializedCopyN fails xs with
      | .error e => .error e
      | .ok r => .ok (x :: r)

/-- Embedding of `MoveItemsInNewMemory(from, to, count)` (lines 280-290) in the regime where
the `if constexpr` selects `std::uninitialized_copy_n` (the element type is
not nothrow-move-constructible but is copy-constructible).
Returns (what ends up constructed in the destination, the state of the source
range afterwards): on a throwing copy the exception propagates *before*
`std::destroy_n(from, count)` runs, so the source range is intact; on success
`std::destroy_n` destroys all `count` source elements. -/
def moveItemsCopy (fails : Nat → Bool) (src : List Nat) :
    Except Unit (List Nat) × List Nat :=
  match uninitializedCopyN fails src with
  | .error _ => (.error (), src)
  | .ok copied => (.ok copied, [])

/-- The relocation-mode selector of `MoveItemsInNewMemory`:
`if constexpr (std::is_nothrow_move_constructible_v<T> ||
!std::is_copy_constructible_v<T>)` — `true` means the elements are relocated
with `std::uninitialized_move_n`, `false` means `std::uninitialized_copy_n`. -/
def movePreferred (nothrowMoveCtor copyCtorAvail : Bool) : Bool :=
  nothrowMoveCtor || !copyCtorAvail

/-- Slot-level view of a vector used to describe post-exception states:
`slots` has one entry per capacity slot (`some v` = live element with value
`v`, `none` = uninitialized or destroyed slot), `sizeVal` is the `size_`
field. -/
structure MemState where
  slots : List (Option Nat)
  sizeVal : Nat
deriving DecidableEq, Repr

/-- The slot-level view of a healthy vector state: the first `size_` slots are
live, the remaining `capacity - size_` slots are raw memory. -/
def toMem (v : VecState) : MemState :=
  ⟨v.elems.map some ++ List.replicate (v.capacity - v.size) none, v.size⟩

/-- Embedding of `Reserve(new_capacity)` (lines 149-156) under the failure oracle, in the
copy-fallback regime. A single `MoveItemsInNewMemory` call relocates all
`size_` elements: if any copy throws, the partially built new block is cleaned
up and deallocated and `data_`/`size_` are untouched; on success the originals
are destroyed and `data_.Swap(new_data)` installs the new block. -/
def reserveTryMem (fails : Nat → Bool) (v : VecState) (n : Nat) : MemState :=
  if n ≤ v.capacity then toMem v
  else if v.elems.any fails then toMem v
  else toMem ⟨v.elems, n⟩

/-- Embedding of `InsertWithReallocate(index, args...)` (lines 259-266) under the failure
oracle, in the copy-fallback regime, as invoked from `Emplace` (so the caller
guarantees `size_ == Capacity() || index == Capacity()`); line by line:
1. `RawMemory<T> new_data(size_ == 0 ? 1 : size_ * 2)` — cannot throw an
   element-operation failure;
2. `new (new_data + index) T(args...)` — if constructing the new element from
   its arguments throws, nothing else has happened: `data_` and `size_` are
   untouched;
3. `MoveItemsInNewMemory(data_, new_data, index)` — copies `[0, index)`; if a
   copy throws, `data_` is still fully intact (the exception fires before the
   `destroy_n` of that call); otherwise **the first `index` source elements
   are destroyed immediately**;
4. `MoveItemsInNewMemory(data_ + index, new_data + index + 1, size_ - index)`
   — copies `[index, size_)`; if a copy throws here, `data_.Swap(new_data)`
   never runs, so the container keeps the old block and the old `size_`, but
   its first `index` slots were already destroyed in step 3;
5. `data_.Swap(new_data)`, then `++size_` back in `Emplace`. -/
def emplaceReallocCopyMem (fails : Nat → Bool) (v : VecState) (index x : Nat) :
    MemState :=
  if fails x then toMem v
  else if (v.elems.take index).any fails then toMem v
  else if (v.elems.drop index).any fails then
    ⟨List.replicate index none ++ (v.elems.drop index).map some
      ++ List.replicate (v.capacity - v.size) none, v.size⟩
  else toMem ⟨v.elems.take index ++ x :: v.elems.drop index, growCapacity v.size⟩

/-- Embedding of `InsertWithReallocate(index, args...)` (lines 259-266) under
the failure oracle, in the nothrow-move regime (the `if constexpr` of
`MoveItemsInNewMemory` selects `std::uninitialized_move_n`): relocation moves
cannot throw, so the only element-operation failure point is
`new (new_data + index) T(args...)`, which fires before `data_` or `size_`
has been touched; on success both relocation calls and the swap complete and
`++size_` runs back in `Emplace`. -/
def emplaceReallocMoveMem (ctorFails : Nat → Bool) (v : VecState) (index x : Nat) :
    MemState :=
  if ctorFails x then toMem v
  else toMem ⟨v.elems.take index ++ x :: v.elems.drop index, growCapacity v.size⟩

/-- Position of the first throwing move assignment during
`std::move_backward(begin() + index, end() - 1, begin() + size_)`:
the algorithm performs `buf[i+1] = std::move(buf[i])` for `i` descending from
`size_ - 2` to `index`, and each source slot still holds its original value
when it is read (writes only go one slot above the sources not yet
processed), so the first throw happens at the *largest* `i` in
`[index, size_ - 2]` whose value's move assignment throws. -/
def firstMoveFailDesc (moveFails : Nat → Bool) (elems : List Nat) (index : Nat) :
    Option Nat :=
  ((List.range (elems.length - 1)).reverse).find?
    (fun i => decide (index ≤ i) && moveFails (elems.getD i 0))

/-- Embedding of `InsertInPlace(index, args...)` (lines 268-278) together with
the `++size_` of `Emplace` (line 236), under the failure oracles
(`ctorFails` for constructing an element from the forwarded arguments,
`moveFails` for the element type's move constructor/assignment, keyed on the
moved value — moves are value-preserving in this model). The `error` payload
is the observable state after the exception propagates out of `Emplace`,
*before* `++size_` is reached; the `ok` payload is the state after `++size_`.
Statement by statement for `index != size_`:
* `T temp(args...)` throws — nothing has changed;
* `new (data_ + size_) T(std::move(*(begin() + size_ - 1)))` throws — slot
  `size_` was never constructed, nothing observable has changed;
* a move assignment of `std::move_backward` throws at source slot `j`
  (`firstMoveFailDesc`) — destinations `j+2 .. size_-1` are already shifted,
  slots `0 .. j+1` keep their values, and the element constructed in slot
  `size_` leaks there (it is beyond `size_`, which is unchanged, so nothing
  will destroy it);
* `*(begin() + index) = std::move(temp)` throws — the buffer is fully
  shifted (`moveBackwardOne`) but slot `index` still holds its old value, the
  element in slot `size_` leaks, `size_` is unchanged;
* otherwise every element is in its final place and `++size_` runs. -/
def insertInPlaceTryMem (ctorFails moveFails : Nat → Bool) (v : VecState)
    (index x : Nat) : Except MemState MemState :=
  if index = v.size then
    if ctorFails x then .error (toMem v)
    else .ok (toMem ⟨v.elems ++ [x], v.capacity⟩)
  else
    if ctorFails x then .error (toMem v)
    else if moveFails (v.elems.getD (v.size - 1) 0) then .error (toMem v)
    else
      match firstMoveFailDesc moveFails v.elems index with
      | some j =>
        .error ⟨(v.elems.take (j + 2) ++ (v.elems.drop (j + 1)).dropLast).map some
          ++ [some (v.elems.getD (v.size - 1) 0)]
          ++ List.replicate (v.capacity - v.size - 1) none, v.size⟩
      | none =>
        if moveFails x then
          .error ⟨(moveBackwardOne (v.elems ++ [v.elems.getD (v.size - 1) 0]) index).map some
            ++ List.replicate (v.capacity - v.size - 1) none, v.size⟩
        else .ok (toMem ⟨insertInPlace v.elems index x, v.capacity⟩)

/-- The copy constructor `Vector(const Vector&)` under the failure oracle: if
`std::uninitialized_copy_n` throws, its partial constructions are destroyed
and the member `data_` deallocates the fresh block — no object is produced. -/
def copyCtorTry (fails : Nat → Bool) (src : VecState) : Except Unit VecState :=
  match uninitializedCopyN fails src.elems with
  | .error _ => .error ()
  | .ok l => .ok ⟨l, src.size⟩

/-- Embedding of `std::copy_n(src, min(src.size_, size_), dst)` under the failure oracle:
copy-assigns left to right while both ranges have elements. On a throwing
copy assignment the destination list so far assigned is returned in `error`
(slots before the failure already hold source values, slots from the failure
on keep their old values). -/
def copyAssignRange (fails : Nat → Bool) :
    List Nat → List Nat → Except (List Nat) (List Nat)
  | [], dst => .ok dst
  | _ :: _, [] => .ok []
  | x :: xs, d :: ds =>
    if fails x then .error (d :: ds)
    else
      match copyAssignRange fails xs ds with
      | .error rest => .error (x :: rest)
      | .ok rest => .ok (x :: rest)

/-- Embedding of `operator=(const Vector& rhs)` (lines 110-131) for distinct objects, under
the failure oracle. The `error` payload is the observable destination state
after the exception propagates.
* Reallocating branch (`rhs.size_ > data_.Capacity()`): `Vector temp(rhs)`
  is built first; if that copy construction throws the destination is
  untouched; otherwise `Swap(temp)` installs it.
* In-place branch: `std::copy_n` over the overlapping prefix (a throw leaves
  `size_` and the later slots unchanged), then `std::uninitialized_copy_n` of
  the extra trailing source elements (a throw destroys only what that
  algorithm constructed; `size_` is still the old size), then `destroy_n` of
  the excess and `size_ = rhs.size_`. -/
def copyAssignTry (fails : Nat → Bool) (dst src : VecState) :
    Except VecState VecState :=
  if dst.capacity < src.size then
    match copyCtorTry fails src with
    | .error _ => .error dst
    | .ok temp => .ok temp
  else
    match copyAssignRange fails src.elems dst.elems with
    | .error damaged => .error ⟨damaged, dst.capacity⟩
    | .ok assigned =>
      if (src.elems.drop dst.size).any fails then .error ⟨assigned, dst.capacity⟩
      else .ok ⟨src.elems, dst.capacity⟩

/-! ### Helper lemmas -/

/-- Setting the slot right after a prefix `p` overwrites the element there. -/
lemma set_append_mid (p : List Nat) (e x : Nat) (s : List Nat) :
    (p ++ e :: s).set p.length x = p ++ x :: s := by
  induction p with
  | nil => rfl
  | cons a as ih => simp [ih]

/-- The shift step of `InsertInPlace` on the buffer `elems ++ [d]`:
slots `[0, index]` keep their values, slots `[index+1, size]` receive the
values previously at `[index, size - 1]`. -/
lemma moveBackwardOne_concat (elems : List Nat) (d : Nat) (index : Nat)
    (h : index < elems.length) :
    moveBackwardOne (elems ++ [d]) index = elems.take (index + 1) ++ elems.drop index := by
  unfold moveBackwardOne
  rw [List.dropLast_concat, List.take_append_of_le_length (by omega)]

/-- Net effect of `InsertInPlace`: the original prefix, the new value, then
the original suffix shifted right by one. -/
lemma insertInPlace_eq (elems : List Nat) (index x : Nat)
    (h : index ≤ elems.length) :
    insertInPlace elems index x = elems.take index ++ x :: elems.drop index := by
  unfold insertInPlace
  rcases eq_or_lt_of_le h with heq | hlt
  · subst heq
    simp
  · rw [if_neg (Nat.ne_of_lt hlt), moveBackwardOne_concat _ _ _ hlt]
    obtain ⟨e, he⟩ : ∃ e, elems[index]? = some e := ⟨elems[index], List.getElem?_eq_getElem hlt⟩
    rw [List.take_succ, he]
    have hlen : (elems.take index).length = index := by
      simp [List.length_take]; omega
    have h2 := set_append_mid (elems.take index) e x (elems.drop index)
    rw [hlen] at h2
    simpa [List.append_assoc] using h2

/-- Net effect: `Emplace` produces prefix, new element, shifted suffix (both branches). -/
lemma emplace_elems (v : VecState) (index x : Nat) (h : index ≤ v.size) :
    (emplace v index x).elems = v.elems.take index ++ x :: v.elems.drop index := by
  unfold emplace
  split
  · rfl
  · exact insertInPlace_eq v.elems index x h

/-- Lengths: `Emplace` grows the number of live elements by exactly one. -/
lemma emplace_size (v : VecState) (index x : Nat) (h : index ≤ v.size) :
    (emplace v index x).size = v.size + 1 := by
  have := emplace_elems v index x h
  unfold VecState.size at *
  rw [this]
  simp [List.length_take]
  omega

/-- Capacities: `Emplace` applies the doubling policy when reallocating, otherwise
unchanged. -/
lemma emplace_capacity (v : VecState) (index x : Nat) :
    (emplace v index x).capacity =
      if v.size = v.capacity ∨ index = v.capacity then growCapacity v.size
      else v.capacity := by
  unfold emplace
  split <;> simp_all

/-- Net effect of `Erase` on the live values. -/
lemma erase_elems (v : VecState) (index : Nat) :
    (erase v index).elems = v.elems.take index ++ v.elems.drop (index + 1) := by
  unfold erase moveForwardOne
  simp [List.dropLast_concat]

/-- Lengths: `Erase` removes exactly one live element. -/
lemma erase_size (v : VecState) (index : Nat) (h : index < v.size) :
    (erase v index).size = v.size - 1 := by
  unfold VecState.size at *
  rw [erase_elems]
  simp [List.length_take]
  omega

/-- Characterization: `std::uninitialized_copy_n` throws exactly when some source value's copy
constructor throws; on success the constructed values are the source values. -/
lemma uninitializedCopyN_eq (fails : Nat → Bool) (l : List Nat) :
    uninitializedCopyN fails l = if l.any fails then .error () else .ok l := by
  induction l with
  | nil => rfl
  | cons x xs ih =>
    by_cases hx : fails x
    · simp [uninitializedCopyN, hx]
    · by_cases hxs : xs.any fails <;> simp [uninitializedCopyN, hx, ih, hxs]

/-- Length of the list with one element inserted at position `i`. -/
lemma length_insert_list (l : List Nat) (i x : Nat) (h : i ≤ l.length) :
    (l.take i ++ x :: l.drop i).length = l.length + 1 := by
  simp [List.length_take]
  omega

/-- In every failure branch of the in-place path the exception propagates out
of `Emplace` before `++size_` is reached, so the `size_` field still holds the
old size. -/
lemma insertInPlaceTryMem_error_size (cf mf : Nat → Bool) (v : VecState)
    (index x : Nat) (m : MemState)
    (hE : insertInPlaceTryMem cf mf v index x = .error m) : m.sizeVal = v.size := by
  unfold insertInPlaceTryMem at hE
  by_cases h1 : index = v.size
  · rw [if_pos h1] at hE
    by_cases h2 : cf x
    · rw [if_pos h2] at hE
      injection hE with h5
      subst h5
      rfl
    · rw [if_neg h2] at hE
      exact absurd hE (by simp)
  · rw [if_neg h1] at hE
    by_cases h2 : cf x
    · rw [if_pos h2] at hE
      injection hE with h5
      subst h5
      rfl
    · rw [if_neg h2] at hE
      by_cases h3 : mf (v.elems.getD (v.size - 1) 0)
      · rw [if_pos h3] at hE
        injection hE with h5
        subst h5
        rfl
      · rw [if_neg h3] at hE
        rcases hF : firstMoveFailDesc mf v.elems index with _ | j
        · simp only [hF] at hE
          by_cases h4 : mf x
          · rw [if_pos h4] at hE
            injection hE with h5
            subst h5
            rfl
          · rw [if_neg h4] at hE
            exact absurd hE (by simp)
        · simp only [hF] at hE
          injection hE with h5
          subst h5
          rfl

/-- In the success branch of the in-place path every element is in its final
place — the net content is the prefix, the new element, the shifted suffix —
and only then does `++size_` run. -/
lemma insertInPlaceTryMem_ok_final (cf mf : Nat → Bool) (v : VecState)
    (index x : Nat) (m : MemState) (h : index ≤ v.size)
    (hE : insertInPlaceTryMem cf mf v index x = .ok m) :
    m = toMem ⟨v.elems.take index ++ x :: v.elems.drop index, v.capacity⟩ := by
  unfold insertInPlaceTryMem at hE
  by_cases h1 : index = v.size
  · rw [if_pos h1] at hE
    by_cases h2 : cf x
    · rw [if_pos h2] at hE
      exact absurd hE (by simp)
    · rw [if_neg h2] at hE
      injection hE with h5
      subst h5
      subst h1
      simp [VecState.size]
  · rw [if_neg h1] at hE
    by_cases h2 : cf x
    · rw [if_pos h2] at hE
      exact absurd hE (by simp)
    · rw [if_neg h2] at hE
      by_cases h3 : mf (v.elems.getD (v.size - 1) 0)
      · rw [if_pos h3] at hE
        exact absurd hE (by simp)
      · rw [if_neg h3] at hE
        rcases hF : firstMoveFailDesc mf v.elems index with _ | j
        · simp only [hF] at hE
          by_cases h4 : mf x
          · rw [if_pos h4] at hE
            exact absurd hE (by simp)
          · rw [if_neg h4] at hE
            injection hE with h5
            subst h5
            rw [insertInPlace_eq v.elems index x h]
        · simp only [hF] at hE
          exact absurd hE (by simp)

/-! ### Invariant preservation and reachable states -/

lemma wf_defaultCtor : wf defaultCtor := by
  simp [wf, defaultCtor, VecState.size]

lemma wf_sizedCtor (n : Nat) : wf (sizedCtor n) := by
  simp [wf, sizedCtor, VecState.size]

lemma wf_copyCtor (v : VecState) : wf (copyCtor v) := by
  simp [wf, copyCtor, VecState.size]

lemma wf_copyAssign (dst src : VecState) (b : Bool) (hdst : wf dst) :
    wf (copyAssign dst src b) := by
  unfold copyAssign
  split
  · exact hdst
  · split
    · exact wf_copyCtor src
    · unfold wf VecState.size at *
      simp_all

lemma wf_reserve (v : VecState) (n : Nat) (h : wf v) : wf (reserve v n) := by
  unfold wf reserve VecState.size at *
  split
  · exact h
  · simp
    omega

lemma wf_resize (v : VecState) (n : Nat) (h : wf v) : wf (resize v n) := by
  unfold wf resize reserve VecState.size at *
  split
  · simp [List.length_take]
    omega
  · split
    · split
      · simp
        omega
      · simp
        omega
    · exact h

lemma wf_emplace (v : VecState) (index x : Nat) (hwf : wf v) (h : index ≤ v.size) :
    wf (emplace v index x) := by
  unfold wf
  rw [emplace_size v index x h, emplace_capacity]
  split
  · unfold growCapacity
    split <;> omega
  · rename_i hc
    push_neg at hc
    unfold wf at hwf
    omega

lemma wf_pushBack (v : VecState) (x : Nat) (hwf : wf v) : wf (pushBack v x) :=
  wf_emplace v v.size x hwf (le_refl _)

lemma wf_popBack (v : VecState) (hwf : wf v) : wf (popBack v) := by
  unfold wf popBack VecState.size at *
  simp
  omega

lemma wf_erase (v : VecState) (index : Nat) (hwf : wf v) : wf (erase v index) := by
  unfold wf at *
  have h := erase_elems v index
  unfold VecState.size at *
  rw [show (erase v index).capacity = v.capacity from rfl, h]
  simp [List.length_take]
  omega

/-- The vector states reachable from the public interface of `Vector<T>`
(construction, assignment, `Reserve`, `Resize`, `PushBack`, `PopBack`,
`Emplace`/`Insert` — `Insert` forwards to `Emplace` — and `Erase`), with the
preconditions the source requires from the caller (valid position, non-empty
container for `PopBack`). -/
inductive Reachable : VecState → Prop where
  | protected default : Reachable defaultCtor
  | sized (n : Nat) : Reachable (sizedCtor n)
  | copy (v : VecState) : Reachable v → Reachable (copyCtor v)
  | moveSrc (v : VecState) : Reachable v → Reachable (moveCtor v).2
  | moveDst (v : VecState) : Reachable v → Reachable (moveCtor v).1
  | copyAsg (dst src : VecState) : Reachable dst → Reachable src →
      Reachable (copyAssign dst src false)
  | copyAsgSelf (v : VecState) : Reachable v → Reachable (copyAssign v v true)
  | moveAsgDst (dst src : VecState) : Reachable dst → Reachable src →
      Reachable (moveAssign dst src false).1
  | moveAsgSrc (dst src : VecState) : Reachable dst → Reachable src →
      Reachable (moveAssign dst src false).2
  | reserveOp (v : VecState) (n : Nat) : Reachable v → Reachable (reserve v n)
  | resizeOp (v : VecState) (n : Nat) : Reachable v → Reachable (resize v n)
  | pushOp (v : VecState) (x : Nat) : Reachable v → Reachable (pushBack v x)
  | popOp (v : VecState) : Reachable v → 0 < v.size → Reachable (popBack v)
  | emplaceOp (v : VecState) (i x : Nat) : Reachable v → i ≤ v.size →
      Reachable (emplace v i x)
  | eraseOp (v : VecState) (i : Nat) : Reachable v → i < v.size →
      Reachable (erase v i)

lemma reachable_wf (v : VecState) (h : Reachable v) : wf v := by
  induction h with
  | default => exact wf_defaultCtor
  | sized n => exact wf_sizedCtor n
  | copy w _ _ => exact wf_copyCtor w
  | moveSrc w _ _ => exact wf_defaultCtor
  | moveDst w _ ih => exact ih
  | copyAsg dst src _ _ ihd _ => exact wf_copyAssign dst src false ihd
  | copyAsgSelf w _ ih => exact wf_copyAssign w w true ih
  | moveAsgDst dst src _ _ _ ihs => exact ihs
  | moveAsgSrc dst src _ _ ihd _ => exact ihd
  | reserveOp w n _ ih => exact wf_reserve w n ih
  | resizeOp w n _ ih => exact wf_resize w n ih
  | pushOp w x _ ih => exact wf_pushBack w x ih
  | popOp w _ _ ih => exact wf_popBack w ih
  | emplaceOp w i x _ hi ih => exact wf_emplace w i x ih hi
  | eraseOp w i _ hi ih => exact wf_erase w i ih

/-- Reading with `List.getD` at the position right after a prefix `a` gives the element
placed there. -/
lemma getD_after_take (a : List Nat) (x : Nat) (b : List Nat) :
    (a ++ x :: b).getD a.length 0 = x := by
  induction a with
  | nil => rfl
  | cons y ys ih => simpa using ih

/-- Reading with `List.getD` at the length of the first part gives the second part's head. -/
lemma getD_append_start (a b : List Nat) :
    (a ++ b).getD a.length 0 = b.getD 0 0 := by
  induction a with
  | nil => rfl
  | cons y ys ih => simpa using ih

/-- Reading the head of a dropped list is reading at the drop offset. -/
lemma getD_drop_zero (l : List Nat) (n : Nat) :
    (l.drop n).getD 0 0 = l.getD n 0 := by
  simp [List.getD_eq_getElem?_getD, List.getElem?_drop]

/-- Under the element-type contract of the spec (a copy operation is required
whenever the move operation is absent or fallible), the `if constexpr`
condition of `MoveItemsInNewMemory` selects move exactly for the
nothrow-movable types. -/
lemma movePreferred_under_contract (nm cc : Bool) (hcontract : nm = false → cc = true) :
    movePreferred nm cc = nm := by
  cases nm
  · rw [hcontract rfl]
    rfl
  · rfl

/-- Within one `MoveItemsInNewMemory` call in the copy regime, a throwing copy
leaves the source range fully intact: the exception fires before the
`std::destroy_n` of that call. -/
lemma moveItemsCopy_fail_leaves_source (fails : Nat → Bool) (src : List Nat)
    (h : (moveItemsCopy fails src).1 = .error ()) :
    (moveItemsCopy fails src).2 = src := by
  unfold moveItemsCopy at *
  rcases huc : uninitializedCopyN fails src with _ | copied <;> simp [huc] at h ⊢

/-- The `Reserve` half of the strong guarantee: `Reserve` relocates through a
single `MoveItemsInNewMemory` call, so whenever some copy throws the container
is observably unchanged. -/
lemma reserveTryMem_fail_unchanged (fails : Nat → Bool) (v : VecState) (n : Nat)
    (h : v.elems.any fails = true) :
    reserveTryMem fails v n = toMem v := by
  unfold reserveTryMem
  by_cases hc : n ≤ v.capacity <;> simp [hc, h]

/-! ### The claims -/

/-- C1: the spec promises the strong guarantee for element-operation failures
during `Reserve` and during a reallocating `Emplace`/`Insert`/`PushBack`.
The code violates it: `InsertWithReallocate` relocates in two
`MoveItemsInNewMemory` calls and each call destroys its source elements as
soon as its own copies are done, so when a copy throws while relocating the
suffix `[index, size_)`, the prefix `[0, index)` of the original storage has
already been destroyed. Failing input: a full vector holding `[5, 7]`
(`size_ == Capacity() == 2`), element type copy-constructible but not
nothrow-move-constructible, copying value `7` throws, `Emplace` at position 1
of value `9`. Before the call the slots are `[some 5, some 7]`; after the
failed call they are `[none, some 7]` with `size_` still 2 — not the
unchanged container the claim requires (and a subsequent destruction of the
container would double-destroy slot 0). -/
theorem c1_realloc_emplace_breaks_strong_guarantee :
    emplaceReallocCopyMem (fun a => a == 7) ⟨[5, 7], 2⟩ 1 9
        = ⟨[none, some 7], 2⟩ ∧
    toMem ⟨[5, 7], 2⟩ = ⟨[some 5, some 7], 2⟩ ∧
    emplaceReallocCopyMem (fun a => a == 7) ⟨[5, 7], 2⟩ 1 9 ≠ toMem ⟨[5, 7], 2⟩ := by
  decide

/-- C2: `Emplace`/`Insert` at a valid position `i ≤ size` yields the original
prefix, the new element, then the original suffix shifted right by one, and
the length grows by exactly one; moreover, on both paths the length is
incremented only after the new element and all shifted elements are in their
final places. The ordering conjunct is stated over the failure oracles: for
the in-place path (`insertInPlaceTryMem`, any constructor/move failure
oracles), every failure outcome still carries the old `size_` and the only
outcome with `size_ + 1` is the one whose content is complete; for the
reallocating path the same holds in both element-type regimes
(`emplaceReallocCopyMem`, `emplaceReallocMoveMem`): every outcome either
still carries the old `size_` or is exactly the completed final state. -/
theorem c2_emplace_readback (v : VecState) (index x : Nat) (h : index ≤ v.size) :
    ((emplace v index x).elems = v.elems.take index ++ x :: v.elems.drop index ∧
      (emplace v index x).size = v.size + 1) ∧
    (∀ cf mf : Nat → Bool, ∀ m : MemState,
      insertInPlaceTryMem cf mf v index x = .error m → m.sizeVal = v.size) ∧
    (∀ cf mf : Nat → Bool, ∀ m : MemState,
      insertInPlaceTryMem cf mf v index x = .ok m →
        m = toMem ⟨v.elems.take index ++ x :: v.elems.drop index, v.capacity⟩ ∧
        m.sizeVal = v.size + 1) ∧
    (∀ cf : Nat → Bool,
      (emplaceReallocCopyMem cf v index x).sizeVal = v.size ∨
      emplaceReallocCopyMem cf v index x
        = toMem ⟨v.elems.take index ++ x :: v.elems.drop index, growCapacity v.size⟩) ∧
    (∀ cf : Nat → Bool,
      (emplaceReallocMoveMem cf v index x).sizeVal = v.size ∨
      emplaceReallocMoveMem cf v index x
        = toMem ⟨v.elems.take index ++ x :: v.elems.drop index, growCapacity v.size⟩) := by
  refine ⟨⟨emplace_elems v index x h, emplace_size v index x h⟩,
    fun cf mf m hE => insertInPlaceTryMem_error_size cf mf v index x m hE,
    fun cf mf m hE => ?_, fun cf => ?_, fun cf => ?_⟩
  · have h5 := insertInPlaceTryMem_ok_final cf mf v index x m h hE
    refine ⟨h5, ?_⟩
    rw [h5]
    exact length_insert_list v.elems index x h
  · unfold emplaceReallocCopyMem
    by_cases h1 : cf x
    · rw [if_pos h1]
      left
      rfl
    · rw [if_neg h1]
      by_cases h2 : (v.elems.take index).any cf
      · rw [if_pos h2]
        left
        rfl
      · rw [if_neg h2]
        by_cases h3 : (v.elems.drop index).any cf
        · rw [if_pos h3]
          left
          rfl
        · rw [if_neg h3]
          right
          rfl
  · unfold emplaceReallocMoveMem
    by_cases h1 : cf x
    · rw [if_pos h1]
      left
      rfl
    · rw [if_neg h1]
      right
      rfl

theorem c2_witness :
    ((emplace ⟨[1, 2], 4⟩ 1 42).elems = [1, 42, 2] ∧
      (emplace ⟨[1, 2], 4⟩ 1 42).size = 3) ∧
    (toMem ⟨[1, 2], 4⟩).sizeVal = 2 ∧
    (toMem ⟨[1, 42, 2], 4⟩).sizeVal = 3 ∧
    ((emplaceReallocCopyMem (fun a => a == 2) ⟨[1, 2], 4⟩ 1 42).sizeVal = 2 ∨
      emplaceReallocCopyMem (fun a => a == 2) ⟨[1, 2], 4⟩ 1 42
        = toMem ⟨[1, 42, 2], 4⟩) ∧
    ((emplaceReallocMoveMem (fun a => a == 0) ⟨[1, 2], 4⟩ 1 42).sizeVal = 2 ∨
      emplaceReallocMoveMem (fun a => a == 0) ⟨[1, 2], 4⟩ 1 42
        = toMem ⟨[1, 42, 2], 4⟩) := by
  obtain ⟨hmain, hfail, hok, hrc, hrm⟩ := c2_emplace_readback ⟨[1, 2], 4⟩ 1 42 (by decide)
  exact ⟨hmain,
    hfail (fun a => a == 42) (fun a => a == 0) (toMem ⟨[1, 2], 4⟩) rfl,
    (hok (fun a => a == 0) (fun a => a == 0) (toMem ⟨[1, 42, 2], 4⟩) rfl).2,
    hrc (fun a => a == 2), hrm (fun a => a == 0)⟩

/-- C3: `Erase` at a valid position removes exactly that element, keeps the
remaining elements in relative order, decreases the length by exactly one and
never changes the capacity (it never reallocates). -/
theorem c3_erase_shift (v : VecState) (index : Nat) (h : index < v.size) :
    (erase v index).elems = v.elems.take index ++ v.elems.drop (index + 1) ∧
    (erase v index).size = v.size - 1 ∧
    (erase v index).capacity = v.capacity :=
  ⟨erase_elems v index, erase_size v index h, rfl⟩

theorem c3_witness :
    (erase ⟨[1, 2, 3], 4⟩ 1).elems = [1, 3] ∧
    (erase ⟨[1, 2, 3], 4⟩ 1).size = 2 ∧
    (erase ⟨[1, 2, 3], 4⟩ 1).capacity = 4 :=
  c3_erase_shift ⟨[1, 2, 3], 4⟩ 1 (by decide)

/-- C4: when the storage is full (`size_ == Capacity()`), a reallocating
`Emplace` — and hence `PushBack`/`EmplaceBack`, which append through
`Emplace` — allocates a new block of capacity `max 1 (2 * size_)`: doubling
with a floor of 1 for an empty container
(`RawMemory<T> new_data(size_ == 0 ? 1 : size_ * 2)`). -/
theorem c4_growth_doubling (v : VecState) (index x : Nat)
    (hfull : v.size = v.capacity) :
    (emplace v index x).capacity = max 1 (2 * v.size) ∧
    (pushBack v x).capacity = max 1 (2 * v.size) := by
  have hgrow : growCapacity v.size = max 1 (2 * v.size) := by
    unfold growCapacity
    split <;> omega
  have h1 : (emplace v index x).capacity = growCapacity v.size := by
    rw [emplace_capacity]
    simp [hfull]
  have h2 : (pushBack v x).capacity = growCapacity v.size := by
    show (emplace v v.size x).capacity = growCapacity v.size
    rw [emplace_capacity]
    simp [hfull]
  rw [h1, h2, hgrow]
  exact ⟨rfl, rfl⟩

theorem c4_witness :
    (emplace ⟨[4, 5], 2⟩ 0 6).capacity = 4 ∧
    (pushBack ⟨[4, 5], 2⟩ 6).capacity = 4 :=
  c4_growth_doubling ⟨[4, 5], 2⟩ 0 6 (by decide)

/-- C5: every vector state reachable through the public operations (with
their documented preconditions) satisfies the container invariant
`size_ ≤ capacity` (the lower bound `0 ≤ size_` is automatic for `Nat`);
the live elements are exactly the slots `[0, size_)` by construction of the
model. -/
theorem c5_size_le_capacity (v : VecState) (h : Reachable v) :
    v.size ≤ v.capacity :=
  reachable_wf v h

theorem c5_witness :
    (pushBack defaultCtor 5).size ≤ (pushBack defaultCtor 5).capacity :=
  c5_size_le_capacity _ (Reachable.pushOp defaultCtor 5 Reachable.default)

/-- C6: the spec's relocation policy says copied originals are left untouched
until the whole relocation succeeds. The code violates this for the
two-call relocation of `InsertWithReallocate`: `MoveItemsInNewMemory`
destroys its source range at the end of each call, so the originals
`[0, index)` are destroyed after the first call even though the relocation of
`[index, size_)` is still outstanding. Failing input: a full vector holding
`[1, 2, 3]`, copy-fallback regime, copying value `3` throws, `Emplace` at
position 2 of value `4`: after the failed call the original block holds
`[none, none, some 3]` instead of the untouched `[some 1, some 2, some 3]`. -/
theorem c6_relocation_destroys_source_early :
    emplaceReallocCopyMem (fun a => a == 3) ⟨[1, 2, 3], 3⟩ 2 4
        = ⟨[none, none, some 3], 3⟩ ∧
    emplaceReallocCopyMem (fun a => a == 3) ⟨[1, 2, 3], 3⟩ 2 4
        ≠ toMem ⟨[1, 2, 3], 3⟩ := by
  decide

/-- C7: copy assignment in the reallocating branch
(`rhs.size_ > data_.Capacity()`) builds a full temporary copy of the source
via the copy constructor and swaps it in, so it either succeeds with the
destination an exact copy of the source (capacity = source size), or the copy
construction throws and the destination is completely unchanged. -/
theorem c7_copy_assign_realloc_strong (fails : Nat → Bool) (dst src : VecState)
    (h : dst.capacity < src.size) :
    copyAssignTry fails dst src =
      if src.elems.any fails then .error dst else .ok ⟨src.elems, src.size⟩ := by
  unfold copyAssignTry copyCtorTry
  rw [if_pos h, uninitializedCopyN_eq]
  by_cases hf : src.elems.any fails <;> simp [hf]

theorem c7_witness :
    copyAssignTry (fun a => a == 3) ⟨[1], 1⟩ ⟨[2, 3], 2⟩ = .error ⟨[1], 1⟩ :=
  c7_copy_assign_realloc_strong (fun a => a == 3) ⟨[1], 1⟩ ⟨[2, 3], 2⟩ (by decide)

/-- C8: `Resize(n)` with `n < size_` destroys exactly the trailing elements,
keeping the prefix and the capacity; with `n > size_` it reserves capacity
for `n` when needed (capacity becomes `n` iff `n > Capacity()`) and appends
`n - size_` value-initialized elements after the unchanged prefix; and in
every case the resulting length is exactly `n`. -/
theorem c8_resize_spec (v : VecState) (n : Nat) :
    (n < v.size →
      (resize v n).elems = v.elems.take n ∧ (resize v n).capacity = v.capacity) ∧
    (v.size < n →
      (resize v n).elems = v.elems ++ List.replicate (n - v.size) 0 ∧
      (resize v n).capacity = (if n ≤ v.capacity then v.capacity else n)) ∧
    (resize v n).size = n := by
  refine ⟨fun h => ?_, fun h => ?_, ?_⟩
  · unfold resize
    rw [if_pos h]
    exact ⟨rfl, rfl⟩
  · unfold resize
    rw [if_neg (by omega), if_pos h]
    refine ⟨rfl, ?_⟩
    by_cases hc : n ≤ v.capacity <;> simp [reserve, hc]
  · unfold resize VecState.size at *
    by_cases h1 : n < v.elems.length
    · rw [if_pos h1]
      simp [List.length_take]
      omega
    · by_cases h2 : v.elems.length < n
      · rw [if_neg h1, if_pos h2]
        simp
        omega
      · rw [if_neg h1, if_neg h2]
        omega

theorem c8_witness :
    (resize ⟨[1, 2, 3], 3⟩ 2).elems = [1, 2] ∧
    (resize ⟨[1, 2, 3], 3⟩ 5).elems = [1, 2, 3, 0, 0] ∧
    (resize ⟨[1, 2, 3], 3⟩ 5).capacity = 5 ∧
    (resize ⟨[1, 2, 3], 3⟩ 2).size = 2 :=
  ⟨((c8_resize_spec ⟨[1, 2, 3], 3⟩ 2).1 (by decide)).1,
   ((c8_resize_spec ⟨[1, 2, 3], 3⟩ 5).2.1 (by decide)).1,
   ((c8_resize_spec ⟨[1, 2, 3], 3⟩ 5).2.1 (by decide)).2,
   (c8_resize_spec ⟨[1, 2, 3], 3⟩ 2).2.2⟩

/-- C9: `Emplace`/`Insert` return `begin() + index`, the position of the
newly inserted element; `Erase` returns `begin() + index`, where the element
that immediately followed the erased one now lives; `EmplaceBack` returns a
reference to the newly appended last element. -/
theorem c9_returned_positions (v : VecState) (i x : Nat) :
    (emplaceRet v i x).2 = i ∧
    (i ≤ v.size → (emplaceRet v i x).1.elems.getD i 0 = x) ∧
    (eraseRet v i).2 = i ∧
    (i + 1 < v.size →
      (eraseRet v i).1.elems.getD i 0 = v.elems.getD (i + 1) 0) ∧
    (emplaceBack v x).2 = x := by
  refine ⟨rfl, fun h => ?_, rfl, fun h => ?_, ?_⟩
  · show (emplace v i x).elems.getD i 0 = x
    rw [emplace_elems v i x h]
    have hlen : (v.elems.take i).length = i := by
      simp [List.length_take]
      exact h
    have := getD_after_take (v.elems.take i) x (v.elems.drop i)
    rwa [hlen] at this
  · show (erase v i).elems.getD i 0 = v.elems.getD (i + 1) 0
    rw [erase_elems]
    have hlen : (v.elems.take i).length = i := by
      simp [List.length_take]
      unfold VecState.size at h
      omega
    have h2 := getD_append_start (v.elems.take i) (v.elems.drop (i + 1))
    rw [hlen, getD_drop_zero] at h2
    exact h2
  · show (emplace v v.size x).elems.getD ((emplace v v.size x).size - 1) 0 = x
    rw [emplace_size v v.size x (le_refl _), emplace_elems v v.size x (le_refl _)]
    simp [VecState.size]

theorem c9_witness :
    (emplaceRet ⟨[10, 20, 30], 4⟩ 1 99).2 = 1 ∧
    (emplaceRet ⟨[10, 20, 30], 4⟩ 1 99).1.elems.getD 1 0 = 99 ∧
    (eraseRet ⟨[10, 20, 30], 4⟩ 1).2 = 1 ∧
    (eraseRet ⟨[10, 20, 30], 4⟩ 1).1.elems.getD 1 0 = 30 ∧
    (emplaceBack ⟨[10, 20, 30], 4⟩ 99).2 = 99 := by
  obtain ⟨h1, h2, h3, h4, h5⟩ := c9_returned_positions ⟨[10, 20, 30], 4⟩ 1 99
  exact ⟨h1, h2 (by decide), h3, h4 (by decide), h5⟩

/-- C10: self-assignment is a no-op: both `operator=(const Vector&)` and
`operator=(Vector&&)` skip their body when `this == &rhs` (modelled by
`isSelf = true`), so the vector keeps its size, capacity and element
values. -/
theorem c10_self_assignment_noop (v : VecState) :
    copyAssign v v true = v ∧ moveAssign v v true = (v, v) :=
  ⟨rfl, rfl⟩

end AdvVec
